import Mathlib

/-!
Verification of the scoped-secret-context mechanism of the
dotenvx-wrangler-vars demo repository.

The embedding models the runtime values of the JavaScript program:
an environment bag maps names to values, where a value is either a
string or an opaque non-string resource handle (KV namespace, D1
database, ...).  Handles are identified by a natural number so that
reference identity becomes decidable equality of the identifier.

The external decryption primitive (`dotenvx.parse`) is a black box: it
receives the single-entry assignment text together with the key pair
and either throws or returns a record of parsed names.  It is modelled
as an abstract deterministic function packaged in the `Prim` structure.
The TypeScript casts (`env.DOTENV_PRIVATE_KEY as string`) do not change
runtime values, so the key arguments are modelled as `Option Value` —
exactly what a property lookup can produce at runtime.
-/

/-- A runtime value of the environment bag: a string, or an opaque
non-string resource handle identified by a number (identity stands for
JavaScript reference identity). -/
inductive Value where
  | str (s : String)
  | handle (id : Nat)
deriving DecidableEq, Repr

/-- An environment bag / snapshot: the entry list of a JavaScript
object (`Object.entries` order, keys unique in real objects). -/
abbrev Env : Type := List (String × Value)

/-- Property lookup `obj[key]` on an entry list: first entry with the
key, `none` for `undefined`. -/
def lookup (e : Env) (k : String) : Option Value :=
  (e.find? (fun p => p.1 == k)).map Prod.snd

/-- The record returned by a successful `dotenvx.parse` call: a mapping
from names to parsed strings (`none` models `undefined`/`null`). -/
def Parsed : Type := String → Option String

/-- The external decryption primitive `dotenvx.parse`: given the
textual assignment and the key pair it either throws (`Except.error`)
or returns a parsed record.  Deterministic black box. -/
structure Prim where
  parse : String → Option Value → Option Value → Except Unit Parsed

/-- The single-entry .env-format assignment the adapters build:
`KEY="value"`. -/
def envString (key value : String) : String :=
  key ++ "=\"" ++ value ++ "\""

/-- JavaScript `s.startsWith(pre)`, embedded as a character-level
prefix test (semantically the library function, stated over the
character data so that it evaluates). -/
def jsStartsWith (s pre : String) : Bool :=
  pre.data.isPrefixOf s.data

/-- JavaScript truthiness of a possibly-absent runtime value, as used
by the `&& privateKey` gate: `undefined` and `""` are falsy, any other
string and any object are truthy. -/
def truthy : Option Value → Bool
  | none => false
  | some (.str s) => s ≠ ""
  | some (.handle _) => true

namespace Secrets

/-- `decrypt` of src/secrets.ts: builds `KEY="value"`, calls the
primitive, and returns `parsed[key] ?? value`; a primitive exception
propagates. -/
def decrypt (prim : Prim) (key value : String)
    (privateKey publicKey : Option Value) : Except Unit String :=
  match prim.parse (envString key value) privateKey publicKey with
  | .error e => .error e
  | .ok parsed => .ok ((parsed key).getD value)

/-- The per-entry transformation of the `withSecrets` loop body of
src/secrets.ts: a string starting with `encrypted:` is decrypted when
the private key is truthy (falling back to the original on a caught
exception); everything else passes through unchanged. -/
def resolveEntry (prim : Prim) (privateKey publicKey : Option Value)
    (key : String) (value : Value) : Value :=
  match value with
  | .str s =>
      if jsStartsWith s "encrypted:" && truthy privateKey then
        match decrypt prim key s privateKey publicKey with
        | .ok p => .str p
        | .error _ => .str s
      else .str s
  | .handle h => .handle h

/-- The snapshot construction of `withSecrets` (src/secrets.ts lines
72-92): reads the key pair from the bag and processes every entry.
Total: per-entry decryption failures are caught inside the loop, so no
exception escapes construction. -/
def processEnv (prim : Prim) (env : Env) : Env :=
  let privateKey := lookup env "DOTENV_PRIVATE_KEY"
  let publicKey := lookup env "DOTENV_PUBLIC_KEY"
  env.map (fun p => (p.1, resolveEntry prim privateKey publicKey p.1 p.2))

/-- `withSecrets`: constructs the snapshot and runs the handler with it
bound as the active store.  The result is the handler's result. -/
def withSecrets {α : Type} (prim : Prim) (env : Env)
    (handler : Env → α) : α :=
  handler (processEnv prim env)

/-- The `envStore.run` binding discipline: during the handler the store
holds the snapshot, afterwards it reverts to the surrounding binding.
Returns (store during the handler, store after `withSecrets` returns). -/
def withSecretsRun (prim : Prim) (prev : Option Env) (env : Env) :
    Option Env × Option Env :=
  (some (processEnv prim env), prev)

/-- `getSecret` of src/secrets.ts: throws outside a context; inside,
returns the snapshot value when it is a string, `undefined` otherwise. -/
def getSecret (store : Option Env) (key : String) :
    Except String (Option String) :=
  match store with
  | none => .error "[secrets] getSecret() called outside of withSecrets() context"
  | some env =>
      .ok (match lookup env key with
           | some (.str s) => some s
           | _ => none)

/-- `requireSecret` of src/secrets.ts: delegates to `getSecret` and
throws when the result is `undefined`. -/
def requireSecret (store : Option Env) (key : String) :
    Except String String :=
  match getSecret store key with
  | .error e => .error e
  | .ok none => .error ("[secrets] Required secret \"" ++ key ++ "\" not found")
  | .ok (some v) => .ok v

/-- `getBinding` of src/secrets.ts: throws outside a context; inside,
returns `env[key]` unchanged (possibly `undefined`). -/
def getBinding (store : Option Env) (key : String) :
    Except String (Option Value) :=
  match store with
  | none => .error "[secrets] getBinding() called outside of withSecrets() context"
  | some env => .ok (lookup env key)

/-- `getEnv` of src/secrets.ts: throws outside a context; inside,
returns the active snapshot (the object itself, `env as T`). -/
def getEnv (store : Option Env) : Except String Env :=
  match store with
  | none => .error "[secrets] getEnv() called outside of withSecrets() context"
  | some env => .ok env

end Secrets

namespace Dotenvx

/-- `decryptValue` of src/dotenvx-decrypt.ts: identical adapter shape —
builds `KEY="value"`, calls the primitive, returns
`parsed[key] ?? encryptedValue`; exceptions propagate.  The option
fields reach it through TypeScript casts, so at runtime they are
whatever the bag lookup produced. -/
def decryptValue (prim : Prim) (key encryptedValue : String)
    (privateKey publicKey : Option Value) : Except Unit String :=
  match prim.parse (envString key encryptedValue) privateKey publicKey with
  | .error e => .error e
  | .ok parsed => .ok ((parsed key).getD encryptedValue)

/-- `isEncrypted`: a string value starting with `encrypted:`. -/
def isEncrypted : Value → Bool
  | .str s => jsStartsWith s "encrypted:"
  | .handle _ => false

/-- The `typeof publicKey === 'string' ? publicKey : undefined`
normalisation used by `decryptEnv`. -/
def pubNorm : Option Value → Option Value
  | some (.str s) => some (.str s)
  | _ => none

/-- `decryptEnv` of src/dotenvx-decrypt.ts: when `DOTENV_PRIVATE_KEY`
is not a string the bag object itself is returned (cast, handles
included); otherwise a fresh record is built holding only the string
entries, with marked ones decrypted (original kept on a caught
failure) — non-string entries are dropped. -/
def decryptEnv (prim : Prim) (env : Env) : Env :=
  let privateKey := lookup env "DOTENV_PRIVATE_KEY"
  let publicKey := lookup env "DOTENV_PUBLIC_KEY"
  match privateKey with
  | some (.str pk) =>
      env.filterMap (fun p =>
        match p.2 with
        | .str s =>
            if jsStartsWith s "encrypted:" then
              match decryptValue prim p.1 s (some (.str pk)) (pubNorm publicKey) with
              | .ok d => some (p.1, Value.str d)
              | .error _ => some (p.1, Value.str s)
            else some (p.1, Value.str s)
        | .handle _ => none)
  | _ => env

/-- The `get` trap of `createDecryptProxy` of src/dotenvx-decrypt.ts,
as the value an access of `prop` yields.  The memo cache is value
transparent here because the primitive is deterministic: the first
access computes exactly this value and caches it, later accesses
return the cached copy, and the catch branch returns the same original
value on every access.  The key pair is read once from the bag with no
string check (casts only). -/
def proxyGet (prim : Prim) (env : Env) (prop : String) : Option Value :=
  let privateKey := lookup env "DOTENV_PRIVATE_KEY"
  let publicKey := lookup env "DOTENV_PUBLIC_KEY"
  match lookup env prop with
  | some (.str s) =>
      if jsStartsWith s "encrypted:" then
        match decryptValue prim prop s privateKey publicKey with
        | .ok d => some (.str d)
        | .error _ => some (.str s)
      else some (.str s)
  | v => v

end Dotenvx

/-!
Heap model for aliasing.  `getEnv` returns the snapshot object itself
while `getAllSecrets` (the part_000 variant of the context module)
returns a spread copy `\x7b...secrets\x7d`; to distinguish the two the
snapshot objects live in a heap of objects addressed by reference, the
store holds a reference, and mutation is property assignment on one
referenced object.
-/

/-- A heap of JavaScript objects together with the active-store
binding (a reference into the heap, or none when uninitialized). -/
structure HeapSt where
  heap : List Env
  store : Option Nat
deriving DecidableEq

/-- Property assignment `obj[k] = v`: replaces the value of an
existing key in place, otherwise appends the new entry. -/
def setKey (e : Env) (k : String) (v : Value) : Env :=
  if e.any (fun p => p.1 == k) then
    e.map (fun p => if p.1 == k then (k, v) else p)
  else e ++ [(k, v)]

/-- Mutating the object at reference `r`: property assignment on that
one heap object, everything else untouched. -/
def mutateObj (st : HeapSt) (r : Nat) (k : String) (v : Value) : HeapSt :=
  ⟨st.heap.set r (setKey (st.heap.getD r []) k v), st.store⟩

namespace SecretsHeap

/-- `getEnv` over the heap model: returns the reference held by the
store — the snapshot object itself, not a copy. -/
def getEnv (st : HeapSt) : Except String Nat :=
  match st.store with
  | none => .error "[secrets] getEnv() called outside of withSecrets() context"
  | some r => .ok r

/-- `getAllSecrets` of the part_000 variant: allocates a fresh object
holding a spread copy of the active snapshot and returns its
reference. -/
def getAllSecrets (st : HeapSt) : Except String (Nat × HeapSt) :=
  match st.store with
  | none => .error "[secrets] getAllSecrets() called outside of withSecrets() context"
  | some r => .ok (st.heap.length, ⟨st.heap ++ [st.heap.getD r []], st.store⟩)

/-- `getSecret` read through the heap-held store (the string-returning
accessor of src/secrets.ts applied to the referenced snapshot). -/
def getSecret (st : HeapSt) (key : String) : Except String (Option String) :=
  match st.store with
  | none => .error "[secrets] getSecret() called outside of withSecrets() context"
  | some r =>
      .ok (match lookup (st.heap.getD r []) key with
           | some (.str s) => some s
           | _ => none)

end SecretsHeap

/-- `needle` occurs somewhere inside `hay` (character level). -/
def containsSub (needle : List Char) : List Char → Bool
  | [] => needle.isEmpty
  | c :: rest => needle.isPrefixOf (c :: rest) || containsSub needle rest

/-- `msg` mentions `acc`: the accessor name occurs inside the message. -/
def mentions (acc msg : String) : Prop := containsSub acc.data msg.data = true

instance (acc msg : String) : Decidable (mentions acc msg) := by
  unfold mentions; infer_instance

/-- Positional lookup commutes with a key-preserving entrywise map. -/
theorem lookup_map_entries (g : String → Value → Value) (env : Env) (k : String) :
    lookup (env.map (fun p => (p.1, g p.1 p.2))) k = (lookup env k).map (g k) := by
  induction env with
  | nil => rfl
  | cons hd tl ih =>
      by_cases h : hd.1 = k
      · simp [lookup, Env, List.find?, h]
      · have hb : (hd.1 == k) = false := by simp [h]
        simpa [lookup, Env, List.find?, hb] using ih

theorem lookup_processEnv (prim : Prim) (env : Env) (k : String) :
    lookup (Secrets.processEnv prim env) k =
      (lookup env k).map
        (Secrets.resolveEntry prim (lookup env "DOTENV_PRIVATE_KEY")
          (lookup env "DOTENV_PUBLIC_KEY") k) := by
  unfold Secrets.processEnv
  exact lookup_map_entries _ env k

/-- A falsy private key disables the marked branch entirely. -/
theorem resolveEntry_of_not_truthy (prim : Prim) (pk pub : Option Value)
    (hpk : truthy pk = false) (k : String) (v : Value) :
    Secrets.resolveEntry prim pk pub k v = v := by
  cases v <;> simp [Secrets.resolveEntry, hpk]

/-- A primitive whose parse succeeds but recovers nothing. -/
def primNone : Prim := ⟨fun _ _ _ => .ok (fun _ => none)⟩

/-- A primitive that always throws. -/
def primThrow : Prim := ⟨fun _ _ _ => .error ()⟩

/-- A primitive that recovers the same plaintext for every name. -/
def primConst (out : String) : Prim := ⟨fun _ _ _ => .ok (fun _ => some out)⟩

/-- A primitive whose recovered text depends on the public-key argument
it was handed. -/
def primPubSensitive : Prim :=
  ⟨fun _ _ pub => .ok (fun _ => if pub = none then some "viaNone" else some "viaPub")⟩

/-- The scenario bag of spec section 8: key, one marked string, one
plain string, one resource handle. -/
def envDemo : Env :=
  [("DOTENV_PRIVATE_KEY", Value.str "k1"),
   ("MY_SECRET", Value.str "encrypted:abc"),
   ("OTHER", Value.str "plain"),
   ("DB", Value.handle 7)]

/-- A bag whose private key is absent. -/
def envNoKey : Env :=
  [("MY_SECRET", Value.str "encrypted:abc"), ("DB", Value.handle 7)]

/-- A bag with a string private key and a resource handle. -/
def envKeyHandle : Env :=
  [("DOTENV_PRIVATE_KEY", Value.str "k"), ("DB", Value.handle 0)]

/-- A bag with a string private key, a non-string public key and a
marked string. -/
def envPubHandle : Env :=
  [("DOTENV_PRIVATE_KEY", Value.str "k"),
   ("DOTENV_PUBLIC_KEY", Value.handle 1),
   ("MY_SECRET", Value.str "encrypted:abc")]

/-- C1: the snapshot built by `withSecrets` has exactly the bag's
names (its key list is the bag's key list, so every bag name is mapped
and no other name is), and every name whose value is not a marked
ciphertext string keeps the bag's value unchanged. -/
theorem c1_snapshot_same_names (prim : Prim) (env : Env) :
    (Secrets.processEnv prim env).map Prod.fst = env.map Prod.fst ∧
    ∀ k v, lookup env k = some v → Dotenvx.isEncrypted v = false →
      lookup (Secrets.processEnv prim env) k = some v := by
  constructor
  · simp [Secrets.processEnv]
  · intro k v hk hv
    rw [lookup_processEnv, hk]
    cases v with
    | str s =>
        have hs : jsStartsWith s "encrypted:" = false := by
          simpa [Dotenvx.isEncrypted] using hv
        simp [Secrets.resolveEntry, hs]
    | handle h => simp [Secrets.resolveEntry]

/-- Witness for C1 at the demo bag: the plain string is unchanged. -/
theorem c1_snapshot_same_names_witness :
    lookup (Secrets.processEnv primNone envDemo) "OTHER" = some (Value.str "plain") :=
  (c1_snapshot_same_names primNone envDemo).2 "OTHER" (Value.str "plain")
    (by decide) (by decide)

/-- C2: a non-string resource handle is mapped by the snapshot to the
identical handle — whatever the private key situation, since the
quantification is over every bag — and `getBinding` in that context
returns the identical handle. -/
theorem c2_handles_pass_through (prim : Prim) (env : Env) (k : String) (h : Nat)
    (hk : lookup env k = some (Value.handle h)) :
    lookup (Secrets.processEnv prim env) k = some (Value.handle h) ∧
    Secrets.getBinding (some (Secrets.processEnv prim env)) k =
      .ok (some (Value.handle h)) := by
  have hl : lookup (Secrets.processEnv prim env) k = some (Value.handle h) := by
    rw [lookup_processEnv, hk]
    simp [Secrets.resolveEntry]
  exact ⟨hl, by simp [Secrets.getBinding, hl]⟩

/-- Witness for C2 at the demo bag: the handle survives both with the
key present and with it absent. -/
theorem c2_handles_pass_through_witness :
    lookup (Secrets.processEnv primThrow envDemo) "DB" = some (Value.handle 7) ∧
    Secrets.getBinding (some (Secrets.processEnv primThrow envDemo)) "DB" =
      .ok (some (Value.handle 7)) :=
  c2_handles_pass_through primThrow envDemo "DB" 7 (by decide)

/-- C3: with the private key absent or the empty string, snapshot
construction is the identity on the bag — every marked string (and
everything else) is stored unchanged, no decryption is attempted, and
since `processEnv` is a total function no error is raised. -/
theorem c3_no_key_no_decryption (prim : Prim) (env : Env)
    (hpk : lookup env "DOTENV_PRIVATE_KEY" = none ∨
           lookup env "DOTENV_PRIVATE_KEY" = some (Value.str "")) :
    Secrets.processEnv prim env = env := by
  have ht : truthy (lookup env "DOTENV_PRIVATE_KEY") = false := by
    rcases hpk with h | h <;> simp [h, truthy]
  unfold Secrets.processEnv
  calc env.map (fun p => (p.1,
          Secrets.resolveEntry prim (lookup env "DOTENV_PRIVATE_KEY")
            (lookup env "DOTENV_PUBLIC_KEY") p.1 p.2))
      = env.map id := by
        apply List.map_congr_left
        intro p _
        rw [resolveEntry_of_not_truthy _ _ _ ht]
        rfl
    _ = env := List.map_id env

/-- Witness for C3 at the keyless bag, with a primitive that would
decrypt everything if it were consulted. -/
theorem c3_no_key_no_decryption_witness :
    Secrets.processEnv (primConst "plain") envNoKey = envNoKey :=
  c3_no_key_no_decryption (primConst "plain") envNoKey (by decide)

/-- C4: with a truthy private key, a marked name whose decryption
throws keeps its original marked string in the snapshot (the loop
catches the exception, so — `processEnv` being total — none escapes),
and the snapshot can differ from the bag only at marked names whose
decryption returned successfully. -/
theorem c4_failure_keeps_original (prim : Prim) (env : Env) :
    (∀ k s, lookup env k = some (Value.str s) →
       jsStartsWith s "encrypted:" = true →
       truthy (lookup env "DOTENV_PRIVATE_KEY") = true →
       Secrets.decrypt prim k s (lookup env "DOTENV_PRIVATE_KEY")
         (lookup env "DOTENV_PUBLIC_KEY") = .error () →
       lookup (Secrets.processEnv prim env) k = some (Value.str s)) ∧
    (∀ k, lookup (Secrets.processEnv prim env) k ≠ lookup env k →
       ∃ s p, lookup env k = some (Value.str s) ∧
         jsStartsWith s "encrypted:" = true ∧
         truthy (lookup env "DOTENV_PRIVATE_KEY") = true ∧
         Secrets.decrypt prim k s (lookup env "DOTENV_PRIVATE_KEY")
           (lookup env "DOTENV_PUBLIC_KEY") = .ok p) := by
  constructor
  · intro k s hk hs ht herr
    rw [lookup_processEnv, hk]
    simp [Secrets.resolveEntry, hs, ht, herr]
  · intro k hne
    rw [lookup_processEnv] at hne
    rcases hv : lookup env k with _ | v
    · rw [hv] at hne; simp at hne
    · rw [hv] at hne
      cases v with
      | handle h => simp [Secrets.resolveEntry] at hne
      | str s =>
          by_cases hm : jsStartsWith s "encrypted:"
          · by_cases ht : truthy (lookup env "DOTENV_PRIVATE_KEY")
            · rcases hd : Secrets.decrypt prim k s (lookup env "DOTENV_PRIVATE_KEY")
                  (lookup env "DOTENV_PUBLIC_KEY") with e | p
              · cases e
                simp [Secrets.resolveEntry, hm, ht, hd] at hne
              · exact ⟨s, p, by simp [hv], hm, ht, hd⟩
            · simp only [Bool.not_eq_true] at ht
              simp [Secrets.resolveEntry, hm, ht] at hne
          · simp only [Bool.not_eq_true] at hm
            simp [Secrets.resolveEntry, hm] at hne

/-- Witness for C4 at the demo bag with the always-throwing primitive:
the marked secret survives unchanged. -/
theorem c4_failure_keeps_original_witness :
    lookup (Secrets.processEnv primThrow envDemo) "MY_SECRET" =
      some (Value.str "encrypted:abc") :=
  (c4_failure_keeps_original primThrow envDemo).1 "MY_SECRET" "encrypted:abc"
    (by decide) (by decide) (by decide) rfl

/-- C8: both adapters (`decrypt` of secrets.ts and `decryptValue` of
dotenvx-decrypt.ts) hand the primitive the single-entry assignment
`name="rawValue"` and return whatever plaintext it recovers under the
name; when the parsed record yields nothing for the name, the original
raw value is returned unchanged. -/
theorem c8_adapter_contract (prim : Prim) (k v : String)
    (priv pub : Option Value) (parsed : Parsed)
    (hp : prim.parse (envString k v) priv pub = .ok parsed) :
    Secrets.decrypt prim k v priv pub = .ok ((parsed k).getD v) ∧
    Dotenvx.decryptValue prim k v priv pub = .ok ((parsed k).getD v) ∧
    (parsed k = none → Secrets.decrypt prim k v priv pub = .ok v ∧
       Dotenvx.decryptValue prim k v priv pub = .ok v) ∧
    (∀ p, parsed k = some p → Secrets.decrypt prim k v priv pub = .ok p ∧
       Dotenvx.decryptValue prim k v priv pub = .ok p) := by
  unfold Secrets.decrypt Dotenvx.decryptValue
  rw [hp]
  exact ⟨rfl, rfl, fun h => by simp [h], fun p h => by simp [h]⟩

/-- Witness for C8: the constant primitive recovers "plain". -/
theorem c8_adapter_contract_witness :
    Secrets.decrypt (primConst "plain") "K" "encrypted:x" none none = .ok "plain" :=
  (c8_adapter_contract (primConst "plain") "K" "encrypted:x" none none
    (fun _ => some "plain") rfl).1

/-- C9: in an active context `getSecret` returns the snapshot value
exactly when it is a string, and `undefined` both for an unmapped name
and for a handle-valued name; `requireSecret` returns the same string
when present and fails with the missing-required-value error exactly
when `getSecret` returned `undefined`. -/
theorem c9_get_and_require (env : Env) (key : String) :
    (∀ s, Secrets.getSecret (some env) key = .ok (some s) ↔
       lookup env key = some (Value.str s)) ∧
    (lookup env key = none → Secrets.getSecret (some env) key = .ok none) ∧
    (∀ h, lookup env key = some (Value.handle h) →
       Secrets.getSecret (some env) key = .ok none) ∧
    (∀ s, Secrets.getSecret (some env) key = .ok (some s) →
       Secrets.requireSecret (some env) key = .ok s) ∧
    (Secrets.getSecret (some env) key = .ok none →
       Secrets.requireSecret (some env) key =
         .error ("[secrets] Required secret \"" ++ key ++ "\" not found")) := by
  refine ⟨?_, ?_, ?_, ?_, ?_⟩
  · intro s
    constructor
    · intro h
      rcases hl : lookup env key with _ | v
      · simp [Secrets.getSecret, hl] at h
      · cases v with
        | str t => simpa [Secrets.getSecret, hl] using h
        | handle b => simp [Secrets.getSecret, hl] at h
    · intro h
      simp [Secrets.getSecret, h]
  · intro h
    simp [Secrets.getSecret, h]
  · intro b h
    simp [Secrets.getSecret, h]
  · intro s h
    unfold Secrets.requireSecret
    rw [h]
  · intro h
    unfold Secrets.requireSecret
    rw [h]

/-- Witness for C9 at the demo bag: the plain string is returned. -/
theorem c9_get_and_require_witness :
    Secrets.getSecret (some envDemo) "OTHER" = .ok (some "plain") :=
  ((c9_get_and_require envDemo "OTHER").1 "plain").mpr (by decide)

/-- `getD` on an appended list, index inside the left part. -/
theorem getD_append_of_lt {α : Type} (l l' : List α) (n : Nat) (d : α)
    (h : n < l.length) : (l ++ l').getD n d = l.getD n d := by
  induction l generalizing n with
  | nil => simp at h
  | cons a t ih =>
      cases n with
      | zero => rfl
      | succ m => simpa [List.getD] using ih m (by simpa using h)

/-- `getD` is unchanged by `set` at a different index. -/
theorem getD_set_of_ne {α : Type} (l : List α) (m n : Nat) (a d : α)
    (h : m ≠ n) : (l.set m a).getD n d = l.getD n d := by
  induction l generalizing m n with
  | nil => rfl
  | cons b t ih =>
      cases m with
      | zero =>
          cases n with
          | zero => exact absurd rfl h
          | succ j => rfl
      | succ i =>
          cases n with
          | zero => rfl
          | succ j => simpa [List.getD] using ih i j (fun e => h (by rw [e]))

/-- `getD` of an appended singleton at the old length. -/
theorem getD_append_len {α : Type} (l : List α) (x d : α) :
    (l ++ [x]).getD l.length d = x := by
  induction l with
  | nil => rfl
  | cons a t ih => simp [List.getD] at ih ⊢

/-- A one-object heap whose snapshot is bound as the active store. -/
def stAliased : HeapSt := ⟨[[("A", Value.str "x")]], some 0⟩

/-- C5 counterexample: `getEnv` returns the active snapshot object
itself, not a copy — mutating the returned mapping changes the value a
later `getSecret` observes in the same context (from "x" to "y"), so
the claim that every snapshot accessor returns a defensive copy is
false for `getEnv`. -/
theorem c5_counterexample :
    SecretsHeap.getEnv stAliased = .ok 0 ∧
    SecretsHeap.getSecret stAliased "A" = .ok (some "x") ∧
    SecretsHeap.getSecret (mutateObj stAliased 0 "A" (Value.str "y")) "A" =
      .ok (some "y") :=
  ⟨rfl, rfl, rfl⟩

/-- C5 amended: `getAllSecrets` (the part_000 accessor) returns a
defensive copy — a freshly allocated object whose entries equal the
active snapshot's — and mutating that copy changes neither later
`getSecret` reads nor the snapshot object a subsequent snapshot
accessor would copy; `getEnv` merely returns the active snapshot
object itself. -/
theorem c5_amended (st : HeapSt) (r : Nat) (hs : st.store = some r)
    (hr : r < st.heap.length) :
    SecretsHeap.getAllSecrets st =
      .ok (st.heap.length, ⟨st.heap ++ [st.heap.getD r []], st.store⟩) ∧
    (st.heap ++ [st.heap.getD r []]).getD st.heap.length [] = st.heap.getD r [] ∧
    SecretsHeap.getEnv st = .ok r ∧
    (∀ k v key,
       SecretsHeap.getSecret
         (mutateObj ⟨st.heap ++ [st.heap.getD r []], st.store⟩
           st.heap.length k v) key =
       SecretsHeap.getSecret st key) ∧
    (∀ k v,
       (mutateObj ⟨st.heap ++ [st.heap.getD r []], st.store⟩
         st.heap.length k v).heap.getD r [] = st.heap.getD r []) := by
  obtain ⟨heap, store⟩ := st
  replace hs : store = some r := hs
  subst hs
  replace hr : r < heap.length := hr
  have hne : heap.length ≠ r := Nat.ne_of_gt hr
  have hobj : ∀ k v,
      (mutateObj ⟨heap ++ [heap.getD r []], some r⟩
        heap.length k v).heap.getD r [] = heap.getD r [] := by
    intro k v
    simp only [mutateObj]
    rw [getD_set_of_ne _ _ _ _ _ hne, getD_append_of_lt _ _ _ _ hr]
  refine ⟨rfl, getD_append_len _ _ _, rfl, ?_, hobj⟩
  intro k v key
  have hstore : (mutateObj ⟨heap ++ [heap.getD r []], some r⟩
      heap.length k v).store = some r := rfl
  simp only [SecretsHeap.getSecret, hstore, hobj k v]

/-- Witness for C5 amended: mutating the copy is invisible to a later
read of the same name. -/
theorem c5_amended_witness :
    SecretsHeap.getSecret
      (mutateObj ⟨stAliased.heap ++ [stAliased.heap.getD 0 []], stAliased.store⟩
        stAliased.heap.length "A" (Value.str "y")) "A" =
    SecretsHeap.getSecret stAliased "A" :=
  (c5_amended stAliased 0 rfl (by decide)).2.2.2.1 "A" (Value.str "y") "A"

/-- Lookup misses every key absent from the key list. -/
theorem lookup_eq_none_of_notin (env : Env) (k : String)
    (h : k ∉ env.map Prod.fst) : lookup env k = none := by
  induction env with
  | nil => rfl
  | cons p t ih =>
      simp only [List.map_cons, List.mem_cons] at h
      push_neg at h
      have hb : (p.1 == k) = false := by
        simp [beq_iff_eq]
        exact fun e => h.1 e.symm
      simp only [lookup, List.find?, hb]
      exact ih h.2

/-- Lookup through a key-preserving `filterMap` over a bag with
duplicate-free keys: a kept entry is found under its old key, a
dropped entry makes its key vanish. -/
theorem lookup_filterMap_keyed (f : String × Value → Option (String × Value))
    (hf : ∀ p q, f p = some q → q.1 = p.1)
    (env : Env) (hnd : (env.map Prod.fst).Nodup) (k : String) :
    lookup (env.filterMap f) k =
      match lookup env k with
      | none => none
      | some v => (f (k, v)).map Prod.snd := by
  induction env with
  | nil => rfl
  | cons p t ih =>
      simp only [List.map_cons, List.nodup_cons] at hnd
      by_cases hk : p.1 = k
      · rcases hq : f p with _ | q
        · -- entry dropped: its key must be absent downstream
          have hnotin : k ∉ (t.filterMap f).map Prod.fst := by
            intro hmem
            rcases List.mem_map.mp hmem with ⟨q, hqmem, hq1⟩
            rcases List.mem_filterMap.mp hqmem with ⟨p', hp'mem, hfp'⟩
            have : q.1 = p'.1 := hf p' q hfp'
            exact hnd.1 (hk ▸ (this ▸ hq1) ▸ List.mem_map_of_mem Prod.fst hp'mem)
          have hl : lookup (t.filterMap f) k = none :=
            lookup_eq_none_of_notin _ _ hnotin
          have hb : (p.1 == k) = true := by simp [hk]
          simp only [List.filterMap_cons, hq, lookup, List.find?, hb]
          simp only [lookup] at hl
          rw [hl]
          have hp2 : (k, p.2) = p := by rw [← hk]
          simp [hp2, hq]
        · have hq1 : q.1 = p.1 := hf p q hq
          have hb : (p.1 == k) = true := by simp [hk]
          have hbq : (q.1 == k) = true := by simp [hq1, hk]
          simp only [List.filterMap_cons, hq, lookup, List.find?, hb, hbq]
          have hp2 : (k, p.2) = p := by rw [← hk]
          simp [hp2, hq]
      · have hb : (p.1 == k) = false := by simp [hk]
        rcases hq : f p with _ | q
        · simp only [List.filterMap_cons, hq, lookup, List.find?, hb]
          exact ih hnd.2
        · have hq1 : q.1 = p.1 := hf p q hq
          have hbq : (q.1 == k) = false := by simp [hq1, hk]
          simp only [List.filterMap_cons, hq, lookup, List.find?, hb, hbq]
          exact ih hnd.2

/-- C6 counterexample: the lazy proxy and the eager snapshot are not
functionally equivalent for every bag and name.  Three concrete
divergences: a handle-valued name is dropped by `decryptEnv` (string
private key present) but returned by the proxy; with no private key,
`decryptEnv` leaves ciphertexts untouched while the proxy still calls
the adapter (here a primitive that recovers a plaintext); a non-string
public key is normalised to `undefined` by `decryptEnv` but handed
through raw by the proxy, and a primitive sensitive to that argument
recovers different plaintexts. -/
theorem c6_counterexample :
    Dotenvx.proxyGet primNone envKeyHandle "DB" ≠
      lookup (Dotenvx.decryptEnv primNone envKeyHandle) "DB" ∧
    Dotenvx.proxyGet (primConst "plain") envNoKey "MY_SECRET" ≠
      lookup (Dotenvx.decryptEnv (primConst "plain") envNoKey) "MY_SECRET" ∧
    Dotenvx.proxyGet primPubSensitive envPubHandle "MY_SECRET" ≠
      lookup (Dotenvx.decryptEnv primPubSensitive envPubHandle) "MY_SECRET" := by
  refine ⟨?_, ?_, ?_⟩ <;> decide

/-- C6 amended: the lazy proxy is functionally equivalent to the eager
snapshot on names bound to strings or unmapped, provided the bag's
keys are duplicate-free, its private key is a string, and its public
key is absent or a string; equivalence fails in general for
handle-valued names (dropped eagerly, passed through lazily) and for
the degenerate key configurations of the counterexample. -/
theorem c6_lazy_eager_equiv (prim : Prim) (env : Env) (pk : String)
    (hpk : lookup env "DOTENV_PRIVATE_KEY" = some (Value.str pk))
    (hpub : Dotenvx.pubNorm (lookup env "DOTENV_PUBLIC_KEY") =
      lookup env "DOTENV_PUBLIC_KEY")
    (hnd : (env.map Prod.fst).Nodup) :
    ∀ name, (lookup env name = none ∨ ∃ s, lookup env name = some (Value.str s)) →
      Dotenvx.proxyGet prim env name = lookup (Dotenvx.decryptEnv prim env) name := by
  intro name hname
  have hdec : Dotenvx.decryptEnv prim env =
      env.filterMap (fun p =>
        match p.2 with
        | .str s =>
            if jsStartsWith s "encrypted:" then
              match Dotenvx.decryptValue prim p.1 s (some (Value.str pk))
                  (Dotenvx.pubNorm (lookup env "DOTENV_PUBLIC_KEY")) with
              | .ok d => some (p.1, Value.str d)
              | .error _ => some (p.1, Value.str s)
            else some (p.1, Value.str s)
        | .handle _ => none) := by
    simp only [Dotenvx.decryptEnv, hpk]
  have hf : ∀ (p q : String × Value), (fun p =>
        match p.2 with
        | Value.str s =>
            if jsStartsWith s "encrypted:" then
              match Dotenvx.decryptValue prim p.1 s (some (Value.str pk))
                  (Dotenvx.pubNorm (lookup env "DOTENV_PUBLIC_KEY")) with
              | .ok d => some (p.1, Value.str d)
              | .error _ => some (p.1, Value.str s)
            else some (p.1, Value.str s)
        | Value.handle _ => (none : Option (String × Value))) p = some q →
      q.1 = p.1 := by
    intro p q h
    rcases p with ⟨k', v'⟩
    cases v' with
    | handle b => simp at h
    | str s =>
        simp only at h
        by_cases hm : jsStartsWith s "encrypted:"
        · rw [if_pos hm] at h
          rcases hdv : Dotenvx.decryptValue prim k' s (some (Value.str pk))
              (Dotenvx.pubNorm (lookup env "DOTENV_PUBLIC_KEY")) with e | d
          · rw [hdv] at h
            rw [← Option.some.inj h]
          · rw [hdv] at h
            rw [← Option.some.inj h]
        · rw [if_neg hm] at h
          rw [← Option.some.inj h]
  rw [hdec, lookup_filterMap_keyed _ hf env hnd name]
  rcases hname with h | ⟨s, h⟩
  · rw [h]
    simp [Dotenvx.proxyGet, h]
  · rw [h]
    simp only [Dotenvx.proxyGet, h, hpub, hpk]
    by_cases hm : jsStartsWith s "encrypted:"
    · simp only [hm, if_pos]
      rcases hdv : Dotenvx.decryptValue prim name s (some (Value.str pk))
          (lookup env "DOTENV_PUBLIC_KEY") with e | d <;> simp [hdv]
    · simp [hm]

/-- Witness for C6 amended at the demo bag: the marked secret reads
the same lazily and eagerly. -/
theorem c6_lazy_eager_equiv_witness :
    Dotenvx.proxyGet (primConst "plain") envDemo "MY_SECRET" =
      lookup (Dotenvx.decryptEnv (primConst "plain") envDemo) "MY_SECRET" :=
  c6_lazy_eager_equiv (primConst "plain") envDemo "k1" (by decide) (by decide)
    (by decide) "MY_SECRET" (Or.inr ⟨"encrypted:abc", by decide⟩)

/-- C7 counterexample: `requireSecret` called while no context is
active fails with the no-active-context error of its delegate
`getSecret`; the message does not name `requireSecret`, so the claim
that every accessor's no-active-context error names that accessor is
false for `requireSecret`. -/
theorem c7_counterexample :
    Secrets.requireSecret none "A" =
      .error "[secrets] getSecret() called outside of withSecrets() context" ∧
    ¬ mentions "requireSecret"
        "[secrets] getSecret() called outside of withSecrets() context" := by
  exact ⟨rfl, by decide⟩

/-- C7 amended: every read accessor invoked with no active store fails
with a no-active-context error that is surfaced to the caller;
`getSecret`, `getBinding`, `getEnv` and `getAllSecrets` name
themselves in the message, while `requireSecret` surfaces the error of
its delegate `getSecret` (naming `getSecret`).  After `withSecrets`
returns, the store reverts to the surrounding binding, so starting
from the uninitialized state the same errors are raised again. -/
theorem c7_no_active_context (key : String) (prim : Prim) (env : Env)
    (hp : List Env) :
    (∃ m, Secrets.getSecret none key = .error m ∧ mentions "getSecret" m) ∧
    (∃ m, Secrets.getBinding none key = .error m ∧ mentions "getBinding" m) ∧
    (∃ m, Secrets.getEnv (none : Option Env) = .error m ∧ mentions "getEnv" m) ∧
    (∃ m, SecretsHeap.getAllSecrets ⟨hp, none⟩ = .error m ∧
       mentions "getAllSecrets" m) ∧
    (∃ m, Secrets.requireSecret none key = .error m ∧ mentions "getSecret" m) ∧
    (Secrets.withSecretsRun prim none env).2 = none :=
  ⟨⟨_, rfl, by decide⟩, ⟨_, rfl, by decide⟩, ⟨_, rfl, by decide⟩,
   ⟨_, rfl, by decide⟩, ⟨_, rfl, by decide⟩, rfl⟩

/-- Witness for C7 amended: the store after a run from the
uninitialized state is uninitialized again. -/
theorem c7_no_active_context_witness :
    (Secrets.withSecretsRun primNone none envDemo).2 = none :=
  (c7_no_active_context "A" primNone envDemo []).2.2.2.2.2
